import Mathlib

/-!
# Verification of the CHIP-8 emulator core (`src/chip8.c`)

This file gives a shallow embedding of the pure core of the emulator:
the machine state (`Chip8`), one instruction cycle (`step`, mirroring
`emulate_instr`), the sprite-draw routine (`drawSprite`, mirroring the
`0xD` case), and the size checks of ROM loading (`loadRom`, mirroring
`init_chip8`).  Machine integers are modelled as `Nat` with explicit
`% 2^w` at the points where the C code truncates (`uint8_t` register
writes truncate mod 256, `uint16_t` writes mod 65536).  `uint8_t`
subtraction `a - b` on values `a b < 256` is embedded as
`(a + 256 - b) % 256`.  The bit tests `v & 1` and `(v & 0x80) >> 7`
are embedded as `v % 2` and `v / 128 % 2`, their exact arithmetic
meanings on `Nat`.  The window dimensions are the defaults installed
by `set_config_from_args` (64 × 32); the program never changes them.
The `rand()` call of opcode `0xCXNN` is modelled by an explicit `rnd`
argument to `step`.  The transient decoded-instruction cache and the
`rom_name` field of the C struct carry no semantic content and are
omitted.
-/

/-- Emulator lifecycle states, as in the C `emulator_state_t` enum. -/
inductive EmulatorState
  | QUIT
  | RUNNING
  | PAUSED
deriving DecidableEq

/-- The CHIP-8 machine state, mirroring the C `chip8_t` struct.
Registers hold `uint8_t` values (< 256), `I` and `PC` hold `uint16_t`
values, `ram` holds 4096 bytes at addresses `0..4095`, `display` holds
64×32 pixels in row-major order at indices `0..2047`, and the call
stack holds 12 return addresses with `sp` the index of the next free
slot (the C code keeps a pointer `stack_pointer`; `sp` is its offset
from the base of the array). -/
structure Chip8 where
  state : EmulatorState
  V : Nat → Nat
  I : Nat
  PC : Nat
  stack : Nat → Nat
  sp : Nat
  keypad : Nat → Bool
  ram : Nat → Nat
  display : Nat → Bool
  delay_timer : Nat
  sound_timer : Nat

/-- Pointwise function update, used for register, memory, stack and
display writes. -/
def upd {α : Type} (f : Nat → α) (i : Nat) (v : α) : Nat → α :=
  fun j => if j = i then v else f j

/-- Whether bit `b` (most-significant first) of sprite byte `sb` is set:
`sprite_byte & (0x80 >> col_bit)` in the C code. -/
def sbit (sb b : Nat) : Bool := sb &&& (128 >>> b) != 0

/-- The display index targeted by sprite row `r`, bit `b` for origin
`(x, y)`: `current_y * width + current_x` with
`current_x = (x + b) % 64` and `current_y = (y + r) % 32`. -/
def tgt (x y r b : Nat) : Nat := ((y + r) % 32) * 64 + ((x + b) % 64)

/-- One iteration of the inner sprite loop (`col_bit` in the C code):
if the sprite bit is set and the target index is on screen, record a
collision when the pixel is already lit and XOR the pixel.  The state
is the pair (display, collision flag). -/
def drawBit (sb x y r b : Nat) (st : (Nat → Bool) × Bool) : (Nat → Bool) × Bool :=
  if sbit sb b then
    if tgt x y r b < 64 * 32 then
      (upd st.1 (tgt x y r b) (!st.1 (tgt x y r b)), st.2 || st.1 (tgt x y r b))
    else st
  else st

/-- The inner sprite loop over a list of bit positions (the C code runs
it on `0..7`). -/
def drawBits (sb x y r : Nat) : List Nat → ((Nat → Bool) × Bool) → (Nat → Bool) × Bool
  | [], st => st
  | b :: bs, st => drawBits sb x y r bs (drawBit sb x y r b st)

/-- The outer sprite loop over a list of row numbers.  As in the C
code, a row whose sprite byte would be read out of RAM bounds stops
the whole loop (`break`). -/
def drawRows (ram : Nat → Nat) (I x y : Nat) : List Nat → ((Nat → Bool) × Bool) → (Nat → Bool) × Bool
  | [], st => st
  | r :: rs, st =>
    if I + r < 4096 then
      drawRows ram I x y rs (drawBits (ram (I + r)) x y r (List.range 8) st)
    else st

/-- The `DXYN` sprite-draw routine: starting from collision flag
`false` (the C code resets `V[0xF]` to 0 first), process rows
`0..n-1`.  Returns the new display and the collision flag. -/
def drawSprite (ram : Nat → Nat) (I x y n : Nat) (disp : Nat → Bool) : (Nat → Bool) × Bool :=
  drawRows ram I x y (List.range n) (disp, false)

/-- The `FX55` register-dump loop: write `V[0..k-1]` to
`ram[I..I+k-1]` (the C loop runs `i = 0..X`, so it is called with
`k = X + 1`). -/
def regDump (ram V : Nat → Nat) (I : Nat) : Nat → (Nat → Nat)
  | 0 => ram
  | k + 1 => upd (regDump ram V I k) (I + k) (V k)

/-- The `FX65` register-load loop: read `ram[I..I+k-1]` into
`V[0..k-1]`. -/
def regLoad (V ram : Nat → Nat) (I : Nat) : Nat → (Nat → Nat)
  | 0 => V
  | k + 1 => upd (regLoad V ram I k) k (ram (I + k))

/-- The `FX0A` wait-for-key body: scan keys `0..15` in ascending order;
on the first pressed key store its index in `V[X]`, otherwise rewind
`PC` by 2 (`uint16_t` wraparound) so the instruction repeats. -/
def waitKey (c : Chip8) (X : Nat) : Chip8 :=
  match (List.range 16).find? c.keypad with
  | some k => { c with V := upd c.V X k }
  | none => { c with PC := (c.PC + 65534) % 65536 }

/-- Execute one decoded instruction on a state whose `PC` has already
been advanced past the instruction, mirroring the big `switch` of
`emulate_instr`.  `rnd` stands for the `rand()` value consumed by
`0xCXNN`.  The decode fields are the arithmetic meanings of the C
mask-and-shift expressions. -/
def execInstr (c : Chip8) (rnd : Nat) (op : Nat) : Chip8 :=
  let NNN := op % 4096
  let NN := op % 256
  let N := op % 16
  let X := op / 256 % 16
  let Y := op / 16 % 16
  let hi := op / 4096 % 16
  if hi = 0x0 then
    if NN = 0xE0 then { c with display := fun _ => false }
    else if NN = 0xEE then
      if 0 < c.sp then { c with sp := c.sp - 1, PC := c.stack (c.sp - 1) }
      else { c with state := EmulatorState.PAUSED }
    else c
  else if hi = 0x1 then { c with PC := NNN }
  else if hi = 0x2 then
    if c.sp < 12 then
      { c with stack := upd c.stack c.sp c.PC, sp := c.sp + 1, PC := NNN }
    else { c with state := EmulatorState.PAUSED }
  else if hi = 0x3 then
    if c.V X = NN then { c with PC := (c.PC + 2) % 65536 } else c
  else if hi = 0x4 then
    if c.V X ≠ NN then { c with PC := (c.PC + 2) % 65536 } else c
  else if hi = 0x5 then
    if N = 0 then
      if c.V X = c.V Y then { c with PC := (c.PC + 2) % 65536 } else c
    else c
  else if hi = 0x6 then { c with V := upd c.V X NN }
  else if hi = 0x7 then { c with V := upd c.V X ((c.V X + NN) % 256) }
  else if hi = 0x8 then
    if N = 0x0 then { c with V := upd c.V X (c.V Y) }
    else if N = 0x1 then { c with V := upd c.V X (c.V X ||| c.V Y) }
    else if N = 0x2 then { c with V := upd c.V X (c.V X &&& c.V Y) }
    else if N = 0x3 then { c with V := upd c.V X (c.V X ^^^ c.V Y) }
    else if N = 0x4 then
      -- the 16-bit sum is computed before the flag write
      let sum := c.V X + c.V Y
      let c1 := { c with V := upd c.V 15 (if 255 < sum then 1 else 0) }
      { c1 with V := upd c1.V X (sum % 256) }
    else if N = 0x5 then
      -- the flag is written first; the subtraction then reads the
      -- possibly-updated registers, exactly as the two C statements do
      let c1 := { c with V := upd c.V 15 (if c.V Y ≤ c.V X then 1 else 0) }
      { c1 with V := upd c1.V X ((c1.V X + 256 - c1.V Y) % 256) }
    else if N = 0x6 then
      let c1 := { c with V := upd c.V 15 (c.V X % 2) }
      { c1 with V := upd c1.V X (c1.V X / 2) }
    else if N = 0x7 then
      let c1 := { c with V := upd c.V 15 (if c.V X ≤ c.V Y then 1 else 0) }
      { c1 with V := upd c1.V X ((c1.V Y + 256 - c1.V X) % 256) }
    else if N = 0xE then
      let c1 := { c with V := upd c.V 15 (c.V X / 128 % 2) }
      { c1 with V := upd c1.V X (c1.V X * 2 % 256) }
    else c
  else if hi = 0x9 then
    if N = 0 then
      if c.V X ≠ c.V Y then { c with PC := (c.PC + 2) % 65536 } else c
    else c
  else if hi = 0xA then { c with I := NNN }
  else if hi = 0xB then { c with PC := (NNN + c.V 0) % 65536 }
  else if hi = 0xC then { c with V := upd c.V X (rnd % 256 &&& NN) }
  else if hi = 0xD then
    let res := drawSprite c.ram c.I (c.V X) (c.V Y) N c.display
    { c with display := res.1, V := upd c.V 15 (if res.2 then 1 else 0) }
  else if hi = 0xE then
    if NN = 0x9E then
      if c.keypad (c.V X % 16) then { c with PC := (c.PC + 2) % 65536 } else c
    else if NN = 0xA1 then
      if c.keypad (c.V X % 16) = false then { c with PC := (c.PC + 2) % 65536 } else c
    else c
  else if hi = 0xF then
    if NN = 0x07 then { c with V := upd c.V X c.delay_timer }
    else if NN = 0x0A then waitKey c X
    else if NN = 0x15 then { c with delay_timer := c.V X }
    else if NN = 0x18 then { c with sound_timer := c.V X }
    else if NN = 0x1E then { c with I := (c.I + c.V X) % 65536 }
    else if NN = 0x29 then { c with I := c.V X % 16 * 5 }
    else if NN = 0x33 then
      if c.I + 2 < 4096 then
        { c with ram := upd (upd (upd c.ram c.I (c.V X / 100)) (c.I + 1) (c.V X / 10 % 10)) (c.I + 2) (c.V X % 10) }
      else c
    else if NN = 0x55 then
      if c.I + X < 4096 then
        { c with ram := regDump c.ram c.V c.I (X + 1), I := (c.I + (X + 1)) % 65536 }
      else c
    else if NN = 0x65 then
      if c.I + X < 4096 then
        { c with V := regLoad c.V c.ram c.I (X + 1), I := (c.I + (X + 1)) % 65536 }
      else c
    else c
  else c

/-- One emulation cycle (`emulate_instr`): fetch the big-endian opcode
at `PC` (the high byte shifted left by 8, i.e. multiplied by 256, plus
the low byte, which is `< 256` for byte-valued RAM), advance `PC` by 2
(mod 2^16) and execute. -/
def step (c : Chip8) (rnd : Nat) : Chip8 :=
  execInstr { c with PC := (c.PC + 2) % 65536 } rnd (c.ram c.PC * 256 + c.ram (c.PC + 1))

/-- The 80-byte fontset loaded at address 0 by `init_chip8`. -/
def fontData : List Nat :=
  [0xF0, 0x90, 0x90, 0x90, 0xF0,
   0x20, 0x60, 0x20, 0x20, 0x70,
   0xF0, 0x10, 0xF0, 0x80, 0xF0,
   0xF0, 0x10, 0xF0, 0x10, 0xF0,
   0x90, 0x90, 0xF0, 0x10, 0x10,
   0xF0, 0x80, 0xF0, 0x10, 0xF0,
   0xF0, 0x80, 0xF0, 0x90, 0xF0,
   0xF0, 0x10, 0x20, 0x40, 0x40,
   0xF0, 0x90, 0xF0, 0x90, 0xF0,
   0xF0, 0x90, 0xF0, 0x10, 0xF0,
   0xF0, 0x90, 0xF0, 0x90, 0x90,
   0xE0, 0x90, 0xE0, 0x90, 0xE0,
   0xF0, 0x80, 0x80, 0x80, 0xF0,
   0xE0, 0x90, 0x90, 0x90, 0xE0,
   0xF0, 0x80, 0xF0, 0x80, 0xF0,
   0xF0, 0x80, 0xF0, 0x80, 0x80]

/-- ROM-loading failure modes of `init_chip8` that depend on the ROM
contents (the file-system failure modes are external collaborators). -/
inductive RomError
  | RomTooLarge
  | EmptyRom
deriving DecidableEq

/-- The pure content of `init_chip8`: reject a ROM larger than
`4096 - 0x200` bytes, then reject an empty ROM, otherwise build the
freshly initialised machine: zeroed state with the font at address 0,
the ROM at 0x200, `PC = 0x200`, an empty stack and state `RUNNING`.
On failure no machine state is produced. -/
def loadRom (rom : List Nat) : Except RomError Chip8 :=
  if 4096 - 0x200 < rom.length then Except.error RomError.RomTooLarge
  else if rom.length = 0 then Except.error RomError.EmptyRom
  else Except.ok
    { state := EmulatorState.RUNNING
      V := fun _ => 0
      I := 0
      PC := 0x200
      stack := fun _ => 0
      sp := 0
      keypad := fun _ => false
      ram := fun a =>
        if a < 80 then fontData.getD a 0
        else if 0x200 ≤ a ∧ a < 0x200 + rom.length then rom.getD (a - 0x200) 0
        else 0
      display := fun _ => false
      delay_timer := 0
      sound_timer := 0 }

/-- A zeroed machine ready to execute at the entry point; base state
for the concrete test states below. -/
def zeroChip8 : Chip8 :=
  { state := EmulatorState.RUNNING
    V := fun _ => 0
    I := 0
    PC := 0x200
    stack := fun _ => 0
    sp := 0
    keypad := fun _ => false
    ram := fun _ => 0
    display := fun _ => false
    delay_timer := 0
    sound_timer := 0 }

/-- The next fetch of `s` reads the two bytes `hb`, `lb`
(big-endian). -/
abbrev fetches (s : Chip8) (hb lb : Nat) : Prop :=
  s.ram s.PC = hb ∧ s.ram (s.PC + 1) = lb

/-- Toggle a list of pixels in order, accumulating the collision flag:
the common shape of the sprite loops once the bit tests are resolved. -/
def togAll : List Nat → ((Nat → Bool) × Bool) → (Nat → Bool) × Bool
  | [], st => st
  | p :: ps, st => togAll ps (upd st.1 p (!st.1 p), st.2 || st.1 p)

/-- The display indices toggled by one sprite row: the targets of the
set bits, in bit order. -/
def rowPts (sb x y r : Nat) : List Nat :=
  ((List.range 8).filter (fun b => sbit sb b)).map (fun b => tgt x y r b)

/-- The display indices toggled by a sprite, rows in order. -/
def spritePts (ram : Nat → Nat) (I x y : Nat) : List Nat → List Nat
  | [] => []
  | r :: rs => rowPts (ram (I + r)) x y r ++ spritePts ram I x y rs

/-- A concrete machine equal to `zeroChip8` except that the two bytes
at the entry point form the given opcode and the registers are `V`. -/
def testState (hb lb : Nat) (V : Nat → Nat) : Chip8 :=
  { zeroChip8 with
    ram := fun a => if a = 0x200 then hb else if a = 0x201 then lb else 0
    V := V }

/-- Opcode `8124`: add V2 into V1 with carry, on V1 = 200, V2 = 100. -/
def c2w : Chip8 :=
  testState 0x81 0x24 (fun i => if i = 1 then 200 else if i = 2 then 100 else 0)

/-- Opcode `8FF4`: add VF into VF, on VF = 128 (the carry is overwritten). -/
def c2cex : Chip8 := testState 0x8F 0xF4 (fun i => if i = 15 then 128 else 0)

/-- Opcode `8125`: V1 minus V2, on V1 = 80, V2 = 90. -/
def c3w5 : Chip8 :=
  testState 0x81 0x25 (fun i => if i = 1 then 80 else if i = 2 then 90 else 0)

/-- Opcode `8127`: V2 minus V1 into V1, on V1 = 80, V2 = 90. -/
def c3w7 : Chip8 :=
  testState 0x81 0x27 (fun i => if i = 1 then 80 else if i = 2 then 90 else 0)

/-- Opcode `80F5`: V0 minus VF, on V0 = 5, VF = 3 (the freshly written flag,
not the old VF, is subtracted). -/
def c3cex : Chip8 :=
  testState 0x80 0xF5 (fun i => if i = 0 then 5 else if i = 15 then 3 else 0)

/-- Opcode `8106`: shift V1 right, on V1 = 7. -/
def c4w6 : Chip8 := testState 0x81 0x06 (fun i => if i = 1 then 7 else 0)

/-- Opcode `810E`: shift V1 left, on V1 = 200. -/
def c4wE : Chip8 := testState 0x81 0x0E (fun i => if i = 1 then 200 else 0)

/-- Opcode `8F06`: shift VF right, on VF = 2 (the flag write destroys the
operand before the shift). -/
def c4cex : Chip8 := testState 0x8F 0x06 (fun i => if i = 15 then 2 else 0)

/-- Opcode `D015`: draw a 5-row sprite with I = 4094 (rows 2..4 out of RAM). -/
def c5wD : Chip8 := { testState 0xD0 0x15 (fun _ => 0) with I := 4094 }

/-- Opcode `F033`: BCD store with I = 4095 (range [4095,4097] leaves RAM). -/
def c5w33 : Chip8 := { testState 0xF0 0x33 (fun _ => 0) with I := 4095 }

/-- Opcode `F655`: dump V0..V6 with I = 4090 (range [4090,4096] leaves RAM). -/
def c5w55 : Chip8 := { testState 0xF6 0x55 (fun _ => 0) with I := 4090 }

/-- Opcode `F665`: load V0..V6 with I = 4090 (range [4090,4096] leaves RAM). -/
def c5w65 : Chip8 := { testState 0xF6 0x65 (fun _ => 0) with I := 4090 }

/-- Opcode `F033`: BCD store of V0 = 123 with I = 4094: addresses 4094 and
4095 are in range, 4096 is not. -/
def c5cex : Chip8 :=
  { testState 0xF0 0x33 (fun i => if i = 0 then 123 else 0) with I := 4094 }

/-- Opcode `2345`: call with the stack already full. -/
def c6wcall : Chip8 := { testState 0x23 0x45 (fun _ => 0) with sp := 12 }

/-- Opcode `00EE`: return with the stack empty. -/
def c6wret : Chip8 := testState 0x00 0xEE (fun _ => 0)

/-- Opcode `F30A`: wait for a key with no key pressed. -/
def c7wno : Chip8 := testState 0xF3 0x0A (fun _ => 0)

/-- Opcode `F30A`: wait for a key with keys 5 and 9 pressed. -/
def c7wkey : Chip8 :=
  { testState 0xF3 0x0A (fun _ => 0) with keypad := fun i => i == 5 || i == 9 }

/-- A machine whose index register points at the first byte past the
font region. -/
def c8w : Chip8 := { zeroChip8 with I := 0x50 }

/-- A four-byte ROM: `A000` (I := 0) then `F033` (BCD store at I). -/
def c8rom : List Nat := [0xA0, 0x00, 0xF0, 0x33]

/-- The machine freshly initialised with `c8rom`. -/
def c8boot : Chip8 :=
  match loadRom c8rom with
  | Except.ok c => c
  | Except.error _ => zeroChip8

/-- Opcode `F255`: dump V0..V2 at I = 100 (in range). -/
def c10w55 : Chip8 := { testState 0xF2 0x55 (fun _ => 0) with I := 100 }

/-- Opcode `F265`: load V0..V2 at I = 100 (in range). -/
def c10w65 : Chip8 := { testState 0xF2 0x65 (fun _ => 0) with I := 100 }

/-! ## Basic lemmas about the embedding -/

theorem upd_same {α : Type} (f : Nat → α) (i : Nat) (v : α) : upd f i v i = v := by
  simp [upd]

theorem upd_other {α : Type} (f : Nat → α) (i j : Nat) (v : α) (h : j ≠ i) :
    upd f i v j = f j := by
  simp [upd, h]

theorem step_eq (c : Chip8) (rnd : Nat) :
    step c rnd =
      execInstr { c with PC := (c.PC + 2) % 65536 } rnd
        (c.ram c.PC * 256 + c.ram (c.PC + 1)) := rfl

/-! ### Dispatch lemmas: `execInstr` on each opcode family used by the
claims, with the decode fields resolved. -/

theorem execInstr_8XY4 (c : Chip8) (rnd X Y : Nat) (hX : X < 16) (hY : Y < 16) :
    execInstr c rnd ((128 + X) * 256 + (16 * Y + 4)) =
      { c with V := upd (upd c.V 15 (if 255 < c.V X + c.V Y then 1 else 0)) X
                      ((c.V X + c.V Y) % 256) } := by
  have e0 : ((128 + X) * 256 + (16 * Y + 4)) / 4096 % 16 = 8 := by omega
  have e2 : ((128 + X) * 256 + (16 * Y + 4)) / 256 % 16 = X := by omega
  have e3 : ((128 + X) * 256 + (16 * Y + 4)) / 16 % 16 = Y := by omega
  have e4 : ((128 + X) * 256 + (16 * Y + 4)) % 16 = 4 := by omega
  simp only [execInstr, e0, e2, e3, e4]
  norm_num

theorem execInstr_8XY5 (c : Chip8) (rnd X Y : Nat) (hX : X < 16) (hY : Y < 16) :
    execInstr c rnd ((128 + X) * 256 + (16 * Y + 5)) =
      { c with V := upd (upd c.V 15 (if c.V Y ≤ c.V X then 1 else 0)) X ((upd c.V 15 (if c.V Y ≤ c.V X then 1 else 0) X + 256 - upd c.V 15 (if c.V Y ≤ c.V X then 1 else 0) Y) % 256) } := by
  have e0 : ((128 + X) * 256 + (16 * Y + 5)) / 4096 % 16 = 8 := by omega
  have e2 : ((128 + X) * 256 + (16 * Y + 5)) / 256 % 16 = X := by omega
  have e3 : ((128 + X) * 256 + (16 * Y + 5)) / 16 % 16 = Y := by omega
  have e4 : ((128 + X) * 256 + (16 * Y + 5)) % 16 = 5 := by omega
  simp only [execInstr, e0, e2, e3, e4]
  norm_num

theorem execInstr_8XY6 (c : Chip8) (rnd X Y : Nat) (hX : X < 16) (hY : Y < 16) :
    execInstr c rnd ((128 + X) * 256 + (16 * Y + 6)) =
      { c with V := upd (upd c.V 15 (c.V X % 2)) X
                      (upd c.V 15 (c.V X % 2) X / 2) } := by
  have e0 : ((128 + X) * 256 + (16 * Y + 6)) / 4096 % 16 = 8 := by omega
  have e2 : ((128 + X) * 256 + (16 * Y + 6)) / 256 % 16 = X := by omega
  have e3 : ((128 + X) * 256 + (16 * Y + 6)) / 16 % 16 = Y := by omega
  have e4 : ((128 + X) * 256 + (16 * Y + 6)) % 16 = 6 := by omega
  simp only [execInstr, e0, e2, e3, e4]
  norm_num

theorem execInstr_8XY7 (c : Chip8) (rnd X Y : Nat) (hX : X < 16) (hY : Y < 16) :
    execInstr c rnd ((128 + X) * 256 + (16 * Y + 7)) =
      { c with V := upd (upd c.V 15 (if c.V X ≤ c.V Y then 1 else 0)) X ((upd c.V 15 (if c.V X ≤ c.V Y then 1 else 0) Y + 256 - upd c.V 15 (if c.V X ≤ c.V Y then 1 else 0) X) % 256) } := by
  have e0 : ((128 + X) * 256 + (16 * Y + 7)) / 4096 % 16 = 8 := by omega
  have e2 : ((128 + X) * 256 + (16 * Y + 7)) / 256 % 16 = X := by omega
  have e3 : ((128 + X) * 256 + (16 * Y + 7)) / 16 % 16 = Y := by omega
  have e4 : ((128 + X) * 256 + (16 * Y + 7)) % 16 = 7 := by omega
  simp only [execInstr, e0, e2, e3, e4]
  norm_num

theorem execInstr_8XYE (c : Chip8) (rnd X Y : Nat) (hX : X < 16) (hY : Y < 16) :
    execInstr c rnd ((128 + X) * 256 + (16 * Y + 14)) =
      { c with V := upd (upd c.V 15 (c.V X / 128 % 2)) X
                      (upd c.V 15 (c.V X / 128 % 2) X * 2 % 256) } := by
  have e0 : ((128 + X) * 256 + (16 * Y + 14)) / 4096 % 16 = 8 := by omega
  have e2 : ((128 + X) * 256 + (16 * Y + 14)) / 256 % 16 = X := by omega
  have e3 : ((128 + X) * 256 + (16 * Y + 14)) / 16 % 16 = Y := by omega
  have e4 : ((128 + X) * 256 + (16 * Y + 14)) % 16 = 14 := by omega
  simp only [execInstr, e0, e2, e3, e4]
  norm_num

theorem execInstr_2NNN (c : Chip8) (rnd A B : Nat) (hA : A < 16) (hB : B < 256) :
    execInstr c rnd ((32 + A) * 256 + B) =
      if c.sp < 12 then
        { c with stack := upd c.stack c.sp c.PC, sp := c.sp + 1,
                 PC := ((32 + A) * 256 + B) % 4096 }
      else { c with state := EmulatorState.PAUSED } := by
  have e0 : ((32 + A) * 256 + B) / 4096 % 16 = 2 := by omega
  simp only [execInstr, e0]
  norm_num

theorem execInstr_00EE (c : Chip8) (rnd : Nat) :
    execInstr c rnd 238 =
      if 0 < c.sp then { c with sp := c.sp - 1, PC := c.stack (c.sp - 1) }
      else { c with state := EmulatorState.PAUSED } := by
  simp only [execInstr]
  norm_num

theorem execInstr_FX0A (c : Chip8) (rnd X : Nat) (hX : X < 16) :
    execInstr c rnd ((240 + X) * 256 + 10) = waitKey c X := by
  have e0 : ((240 + X) * 256 + 10) / 4096 % 16 = 15 := by omega
  have e1 : ((240 + X) * 256 + 10) % 256 = 10 := by omega
  have e2 : ((240 + X) * 256 + 10) / 256 % 16 = X := by omega
  simp only [execInstr, e0, e1, e2]
  norm_num

theorem execInstr_FX33 (c : Chip8) (rnd X : Nat) (hX : X < 16) :
    execInstr c rnd ((240 + X) * 256 + 51) =
      if c.I + 2 < 4096 then
        { c with ram := upd (upd (upd c.ram c.I (c.V X / 100)) (c.I + 1) (c.V X / 10 % 10))
                          (c.I + 2) (c.V X % 10) }
      else c := by
  have e0 : ((240 + X) * 256 + 51) / 4096 % 16 = 15 := by omega
  have e1 : ((240 + X) * 256 + 51) % 256 = 51 := by omega
  have e2 : ((240 + X) * 256 + 51) / 256 % 16 = X := by omega
  simp only [execInstr, e0, e1, e2]
  norm_num

theorem execInstr_FX55 (c : Chip8) (rnd X : Nat) (hX : X < 16) :
    execInstr c rnd ((240 + X) * 256 + 85) =
      if c.I + X < 4096 then
        { c with ram := regDump c.ram c.V c.I (X + 1), I := (c.I + (X + 1)) % 65536 }
      else c := by
  have e0 : ((240 + X) * 256 + 85) / 4096 % 16 = 15 := by omega
  have e1 : ((240 + X) * 256 + 85) % 256 = 85 := by omega
  have e2 : ((240 + X) * 256 + 85) / 256 % 16 = X := by omega
  simp only [execInstr, e0, e1, e2]
  norm_num

theorem execInstr_FX65 (c : Chip8) (rnd X : Nat) (hX : X < 16) :
    execInstr c rnd ((240 + X) * 256 + 101) =
      if c.I + X < 4096 then
        { c with V := regLoad c.V c.ram c.I (X + 1), I := (c.I + (X + 1)) % 65536 }
      else c := by
  have e0 : ((240 + X) * 256 + 101) / 4096 % 16 = 15 := by omega
  have e1 : ((240 + X) * 256 + 101) % 256 = 101 := by omega
  have e2 : ((240 + X) * 256 + 101) / 256 % 16 = X := by omega
  simp only [execInstr, e0, e1, e2]
  norm_num

theorem execInstr_DXYN (c : Chip8) (rnd X Y N : Nat) (hX : X < 16) (hY : Y < 16)
    (hN : N < 16) :
    execInstr c rnd ((208 + X) * 256 + (16 * Y + N)) =
      { c with display := (drawSprite c.ram c.I (c.V X) (c.V Y) N c.display).1,
               V := upd c.V 15
                      (if (drawSprite c.ram c.I (c.V X) (c.V Y) N c.display).2
                       then 1 else 0) } := by
  have e0 : ((208 + X) * 256 + (16 * Y + N)) / 4096 % 16 = 13 := by omega
  have e2 : ((208 + X) * 256 + (16 * Y + N)) / 256 % 16 = X := by omega
  have e3 : ((208 + X) * 256 + (16 * Y + N)) / 16 % 16 = Y := by omega
  have e4 : ((208 + X) * 256 + (16 * Y + N)) % 16 = N := by omega
  simp only [execInstr, e0, e2, e3, e4]
  norm_num

/-! ### Characterization of the sprite-draw routine -/

theorem togAll_append (l1 l2 : List Nat) (st : (Nat → Bool) × Bool) :
    togAll (l1 ++ l2) st = togAll l2 (togAll l1 st) := by
  induction l1 generalizing st with
  | nil => rfl
  | cons p ps ih => simp [togAll, ih]

theorem tgt_lt (x y r b : Nat) : tgt x y r b < 2048 := by
  have h1 : (y + r) % 32 < 32 := Nat.mod_lt _ (by norm_num)
  have h2 : (x + b) % 64 < 64 := Nat.mod_lt _ (by norm_num)
  unfold tgt
  omega

theorem tgt_inj {x y r1 b1 r2 b2 : Nat} (hr1 : r1 < 32) (hr2 : r2 < 32)
    (hb1 : b1 < 64) (hb2 : b2 < 64) (h : tgt x y r1 b1 = tgt x y r2 b2) :
    r1 = r2 ∧ b1 = b2 := by
  unfold tgt at h
  omega

theorem tgt_inj_bit {x y r b1 b2 : Nat} (hb1 : b1 < 64) (hb2 : b2 < 64)
    (h : tgt x y r b1 = tgt x y r b2) : b1 = b2 := by
  unfold tgt at h
  omega

theorem drawBits_eq (sb x y r : Nat) (bs : List Nat) (st : (Nat → Bool) × Bool) :
    drawBits sb x y r bs st =
      togAll ((bs.filter (fun b => sbit sb b)).map (fun b => tgt x y r b)) st := by
  induction bs generalizing st with
  | nil => rfl
  | cons b bs ih =>
    by_cases hb : sbit sb b
    · have hlt : tgt x y r b < 64 * 32 := by have := tgt_lt x y r b; omega
      simp [drawBits, drawBit, hb, hlt, List.filter_cons, togAll, ih]
    · simp [drawBits, drawBit, hb, List.filter_cons, togAll, ih]

theorem drawRows_eq (ram : Nat → Nat) (I x y : Nat) (rs : List Nat)
    (h : ∀ r ∈ rs, I + r < 4096) :
    ∀ st, drawRows ram I x y rs st = togAll (spritePts ram I x y rs) st := by
  induction rs with
  | nil => intro st; rfl
  | cons r rs ih =>
    intro st
    have hr : I + r < 4096 := h r (by simp)
    show (if I + r < 4096 then drawRows ram I x y rs (drawBits (ram (I + r)) x y r (List.range 8) st) else st) = _
    rw [if_pos hr, ih (fun a ha => h a (by simp [ha])), drawBits_eq,
      show spritePts ram I x y (r :: rs) = rowPts (ram (I + r)) x y r ++ spritePts ram I x y rs from rfl,
      togAll_append]
    rfl

theorem list_any_congr {l : List Nat} {f g : Nat → Bool} (h : ∀ a ∈ l, f a = g a) :
    l.any f = l.any g := by
  induction l with
  | nil => rfl
  | cons a l ih =>
    simp only [List.any_cons, h a (by simp), ih (fun b hb => h b (by simp [hb]))]

theorem togAll_fst (ps : List Nat) (hnd : ps.Nodup) :
    ∀ st q, (togAll ps st).1 q = (st.1 q).xor (decide (q ∈ ps)) := by
  induction ps with
  | nil => intro st q; simp [togAll]
  | cons p ps ih =>
    intro st q
    have hp : p ∉ ps := (List.nodup_cons.mp hnd).1
    have hnd2 : ps.Nodup := (List.nodup_cons.mp hnd).2
    rw [show togAll (p :: ps) st = togAll ps (upd st.1 p (!st.1 p), st.2 || st.1 p) from rfl,
      ih hnd2]
    by_cases hq : q = p
    · subst hq
      simp [upd_same, hp]
    · simp [upd_other _ _ _ _ hq, hq]

theorem togAll_snd (ps : List Nat) (hnd : ps.Nodup) :
    ∀ st, (togAll ps st).2 = (st.2 || ps.any st.1) := by
  induction ps with
  | nil => intro st; simp [togAll]
  | cons p ps ih =>
    intro st
    have hp : p ∉ ps := (List.nodup_cons.mp hnd).1
    have hnd2 : ps.Nodup := (List.nodup_cons.mp hnd).2
    rw [show togAll (p :: ps) st = togAll ps (upd st.1 p (!st.1 p), st.2 || st.1 p) from rfl,
      ih hnd2]
    have hany : ps.any (upd st.1 p (!st.1 p)) = ps.any st.1 := by
      apply list_any_congr
      intro a ha
      exact upd_other _ _ _ _ (fun h => hp (h ▸ ha))
    simp [hany, Bool.or_assoc]

theorem mem_rowPts {sb x y r q : Nat} :
    q ∈ rowPts sb x y r ↔ ∃ b, b < 8 ∧ sbit sb b = true ∧ q = tgt x y r b := by
  simp only [rowPts, List.mem_map, List.mem_filter, List.mem_range]
  constructor
  · rintro ⟨b, ⟨hb, hsb⟩, rfl⟩
    exact ⟨b, hb, hsb, rfl⟩
  · rintro ⟨b, hb, hsb, rfl⟩
    exact ⟨b, ⟨hb, hsb⟩, rfl⟩

theorem mem_spritePts {ram : Nat → Nat} {I x y q : Nat} (rs : List Nat) :
    q ∈ spritePts ram I x y rs ↔
      ∃ r, r ∈ rs ∧ ∃ b, b < 8 ∧ sbit (ram (I + r)) b = true ∧ q = tgt x y r b := by
  induction rs with
  | nil => simp [spritePts]
  | cons r rs ih =>
    show q ∈ rowPts (ram (I + r)) x y r ++ spritePts ram I x y rs ↔ _
    rw [List.mem_append, ih, mem_rowPts]
    constructor
    · rintro (⟨b, hb, hsb, rfl⟩ | ⟨a, ha, b, hb, hsb, rfl⟩)
      · exact ⟨r, by simp, b, hb, hsb, rfl⟩
      · exact ⟨a, by simp [ha], b, hb, hsb, rfl⟩
    · rintro ⟨a, ha, b, hb, hsb, rfl⟩
      rcases List.mem_cons.mp ha with h | h
      · subst h
        exact Or.inl ⟨b, hb, hsb, rfl⟩
      · exact Or.inr ⟨a, h, b, hb, hsb, rfl⟩

theorem nodup_rowPts (sb x y r : Nat) : (rowPts sb x y r).Nodup := by
  apply List.Nodup.map_on
  · intro b1 hb1 b2 hb2 heq
    have h1 : b1 < 8 := List.mem_range.mp (List.mem_filter.mp hb1).1
    have h2 : b2 < 8 := List.mem_range.mp (List.mem_filter.mp hb2).1
    exact tgt_inj_bit (by omega) (by omega) heq
  · exact List.Nodup.filter _ (List.nodup_range 8)

theorem nodup_spritePts (ram : Nat → Nat) (I x y : Nat) (rs : List Nat)
    (hlt : ∀ r ∈ rs, r < 32) (hnd : rs.Nodup) :
    (spritePts ram I x y rs).Nodup := by
  induction rs with
  | nil => simp [spritePts]
  | cons r rs ih =>
    show (rowPts (ram (I + r)) x y r ++ spritePts ram I x y rs).Nodup
    rw [List.nodup_append]
    refine ⟨nodup_rowPts _ _ _ _,
      ih (fun a ha => hlt a (by simp [ha])) (List.nodup_cons.mp hnd).2, ?_⟩
    intro q hq1 hq2
    obtain ⟨b, hb, hsb, rfl⟩ := mem_rowPts.mp hq1
    obtain ⟨r2, hr2, b2, hb2, hsb2, heq⟩ := (mem_spritePts rs).mp hq2
    have hrr : r ≠ r2 := fun h => (List.nodup_cons.mp hnd).1 (h ▸ hr2)
    exact hrr (tgt_inj (hlt r (by simp)) (hlt r2 (by simp [hr2]))
      (by omega) (by omega) heq).1

theorem drawSprite_fst (ram : Nat → Nat) (I x y n : Nat) (disp : Nat → Bool) (q : Nat)
    (hn : n < 16) (hread : ∀ r, r < n → I + r < 4096) :
    (drawSprite ram I x y n disp).1 q =
      (disp q).xor (decide (q ∈ spritePts ram I x y (List.range n))) := by
  unfold drawSprite
  rw [drawRows_eq ram I x y _ (fun r hr => hread r (List.mem_range.mp hr)),
    togAll_fst _ (nodup_spritePts ram I x y _
      (fun r hr => by have := List.mem_range.mp hr; omega) (List.nodup_range n))]

theorem drawSprite_snd (ram : Nat → Nat) (I x y n : Nat) (disp : Nat → Bool)
    (hn : n < 16) (hread : ∀ r, r < n → I + r < 4096) :
    (drawSprite ram I x y n disp).2 = (spritePts ram I x y (List.range n)).any disp := by
  unfold drawSprite
  rw [drawRows_eq ram I x y _ (fun r hr => hread r (List.mem_range.mp hr)),
    togAll_snd _ (nodup_spritePts ram I x y _
      (fun r hr => by have := List.mem_range.mp hr; omega) (List.nodup_range n))]
  simp

theorem drawRows_clip (ram : Nat → Nat) (I x y : Nat) :
    ∀ (cnt s : Nat) (st : (Nat → Bool) × Bool),
      drawRows ram I x y (List.range' s cnt) st =
        drawRows ram I x y (List.range' s (min cnt (4096 - I - s))) st := by
  intro cnt
  induction cnt with
  | zero => intro s st; simp
  | succ cnt ih =>
    intro s st
    by_cases h : I + s < 4096
    · have hmin : min (cnt + 1) (4096 - I - s) = min cnt (4096 - I - (s + 1)) + 1 := by
        omega
      rw [hmin,
        show List.range' s (cnt + 1) = s :: List.range' (s + 1) cnt from rfl,
        show List.range' s (min cnt (4096 - I - (s + 1)) + 1) =
          s :: List.range' (s + 1) (min cnt (4096 - I - (s + 1))) from rfl]
      simp only [drawRows, if_pos h]
      exact ih (s + 1) _
    · have h0 : 4096 - I - s = 0 := by omega
      rw [h0,
        show List.range' s (cnt + 1) = s :: List.range' (s + 1) cnt from rfl]
      simp only [Nat.min_zero, drawRows, if_neg h]

theorem drawSprite_clip (ram : Nat → Nat) (I x y n : Nat) (disp : Nat → Bool) :
    drawSprite ram I x y n disp = drawSprite ram I x y (min n (4096 - I)) disp := by
  unfold drawSprite
  rw [List.range_eq_range', List.range_eq_range']
  have h := drawRows_clip ram I x y n 0 (disp, false)
  simpa using h

/-- C1: drawing the same sprite (same RAM contents, same index
register, same origin, same height, all `n` sprite bytes readable)
twice in succession restores the display exactly, and the second
draw's collision flag is set iff the second draw toggles a pixel that
the first draw left lit.  `drawSprite` is the `0xD` branch of
`execInstr`; the collision flag is the value written to `V[0xF]`. -/
theorem C1_draw_twice_restores (ram : Nat → Nat) (I x y n : Nat) (disp : Nat → Bool)
    (hn : n < 16) (hread : ∀ r, r < n → I + r < 4096) :
    (drawSprite ram I x y n (drawSprite ram I x y n disp).1).1 = disp ∧
      ((drawSprite ram I x y n (drawSprite ram I x y n disp).1).2 = true ↔
        ∃ r, r < n ∧ ∃ b, b < 8 ∧ sbit (ram (I + r)) b = true ∧
          (drawSprite ram I x y n disp).1 (tgt x y r b) = true) := by
  constructor
  · funext q
    rw [drawSprite_fst ram I x y n _ q hn hread,
      drawSprite_fst ram I x y n disp q hn hread]
    cases h1 : disp q <;> cases h2 : decide (q ∈ spritePts ram I x y (List.range n)) <;> rfl
  · rw [drawSprite_snd ram I x y n _ hn hread, List.any_eq_true]
    constructor
    · rintro ⟨q, hq, hdq⟩
      obtain ⟨r, hr, b, hb, hsb, rfl⟩ := (mem_spritePts _).mp hq
      exact ⟨r, List.mem_range.mp hr, b, hb, hsb, hdq⟩
    · rintro ⟨r, hr, b, hb, hsb, hd⟩
      exact ⟨tgt x y r b, (mem_spritePts _).mpr
        ⟨r, List.mem_range.mpr hr, b, hb, hsb, rfl⟩, hd⟩

/-- Witness for C1 at a concrete input: one all-ones sprite row drawn
from address 0 at origin (0,0) on a blank display. -/
theorem C1_draw_twice_restores_witness :
    (drawSprite (fun _ => 255) 0 0 0 1 (drawSprite (fun _ => 255) 0 0 0 1 (fun _ => false)).1).1 = (fun _ => false) ∧
      ((drawSprite (fun _ => 255) 0 0 0 1 (drawSprite (fun _ => 255) 0 0 0 1 (fun _ => false)).1).2 = true ↔
        ∃ r, r < 1 ∧ ∃ b, b < 8 ∧ sbit ((fun (_ : Nat) => 255) (0 + r)) b = true ∧
          (drawSprite (fun _ => 255) 0 0 0 1 (fun _ => false)).1 (tgt 0 0 r b) = true) :=
  C1_draw_twice_restores (fun _ => 255) 0 0 0 1 (fun _ => false) (by decide)
    (by intro r hr; omega)

/-! ## Claims about the arithmetic register family (`8XYN`) -/

/-- C2 (amended): for X ≠ 0xF, the add-registers instruction `8XY4`
sets VF to 1 iff `V[X] + V[Y] > 255` and sets `V[X]` to the sum mod
256.  (For X = 0xF the claim fails: the sum is stored into `V[X] = VF`
after the carry and overwrites it — see the counterexample.) -/
theorem C2_add_registers (s : Chip8) (rnd X Y : Nat)
    (hX : X < 16) (hY : Y < 16) (hXF : X ≠ 15)
    (ha : s.V X < 256) (hb : s.V Y < 256)
    (hf : fetches s (128 + X) (16 * Y + 4)) :
    ((step s rnd).V 15 = 1 ↔ 255 < s.V X + s.V Y) ∧
      (step s rnd).V X = (s.V X + s.V Y) % 256 := by
  obtain ⟨h0, h1⟩ := hf
  rw [step_eq, h0, h1, execInstr_8XY4 _ _ _ _ hX hY]
  constructor
  · simp only [upd]
    split_ifs with h1 h2 <;> simp_all
  · simp [upd]

/-- Witness for C2 at `c2w` (X = 1, Y = 2, V1 = 200, V2 = 100). -/
theorem C2_add_registers_witness :
    (((step c2w 0).V 15 = 1 ↔ 255 < c2w.V 1 + c2w.V 2) ∧
      (step c2w 0).V 1 = (c2w.V 1 + c2w.V 2) % 256) :=
  C2_add_registers c2w 0 1 2 (by decide) (by decide) (by decide) (by decide)
    (by decide) ⟨by decide, by decide⟩

/-- C2 counterexample: executing `8FF4` with VF = 128 gives a sum of
256 > 255, yet VF ends as 0, because the stored sum overwrites the
carry flag when X = 0xF. -/
theorem C2_flag_overwritten_cex :
    255 < c2cex.V 15 + c2cex.V 15 ∧ ¬((step c2cex 0).V 15 = 1) := by decide

/-- C3 (amended): for X ≠ 0xF and Y ≠ 0xF, `8XY5` sets VF to 1 iff
`V[X] ≥ V[Y]` and sets `V[X]` to `(V[X] - V[Y]) mod 256` (written
`(V[X] + 256 - V[Y]) % 256` on 8-bit values), and `8XY7` is the
mirror with the operands swapped.  (For X = 0xF or Y = 0xF the claim
fails: the flag is written before the subtraction, which then reads
the freshly written flag instead of the original register — see the
counterexample.) -/
theorem C3_sub_registers :
    (∀ (s : Chip8) (rnd X Y : Nat), X < 16 → Y < 16 → X ≠ 15 → Y ≠ 15 →
      s.V X < 256 → s.V Y < 256 → fetches s (128 + X) (16 * Y + 5) →
      (((step s rnd).V 15 = 1 ↔ s.V Y ≤ s.V X) ∧
        (step s rnd).V X = (s.V X + 256 - s.V Y) % 256)) ∧
    (∀ (s : Chip8) (rnd X Y : Nat), X < 16 → Y < 16 → X ≠ 15 → Y ≠ 15 →
      s.V X < 256 → s.V Y < 256 → fetches s (128 + X) (16 * Y + 7) →
      (((step s rnd).V 15 = 1 ↔ s.V X ≤ s.V Y) ∧
        (step s rnd).V X = (s.V Y + 256 - s.V X) % 256)) := by
  constructor
  · intro s rnd X Y hX hY hXF hYF ha hb hf
    obtain ⟨h0, h1⟩ := hf
    rw [step_eq, h0, h1, execInstr_8XY5 _ _ _ _ hX hY]
    constructor
    · simp only [upd]
      split_ifs with h1 h2 <;> simp_all
    · simp [upd, Ne.symm hXF, hXF, hYF]
  · intro s rnd X Y hX hY hXF hYF ha hb hf
    obtain ⟨h0, h1⟩ := hf
    rw [step_eq, h0, h1, execInstr_8XY7 _ _ _ _ hX hY]
    constructor
    · simp only [upd]
      split_ifs with h1 h2 <;> simp_all
    · simp [upd, Ne.symm hXF, hXF, hYF]

/-- Witness for C3 at `c3w5` and `c3w7` (X = 1, Y = 2, V1 = 80,
V2 = 90). -/
theorem C3_sub_registers_witness :
    ((((step c3w5 0).V 15 = 1 ↔ c3w5.V 2 ≤ c3w5.V 1) ∧
      (step c3w5 0).V 1 = (c3w5.V 1 + 256 - c3w5.V 2) % 256) ∧
     (((step c3w7 0).V 15 = 1 ↔ c3w7.V 1 ≤ c3w7.V 2) ∧
      (step c3w7 0).V 1 = (c3w7.V 2 + 256 - c3w7.V 1) % 256)) :=
  ⟨C3_sub_registers.1 c3w5 0 1 2 (by decide) (by decide) (by decide) (by decide)
      (by decide) (by decide) ⟨by decide, by decide⟩,
    C3_sub_registers.2 c3w7 0 1 2 (by decide) (by decide) (by decide) (by decide)
      (by decide) (by decide) ⟨by decide, by decide⟩⟩

/-- C3 counterexample: executing `80F5` with V0 = 5 and VF = 3 should,
by the claim, leave V0 = (5 - 3) mod 256 = 2; the code first writes
the flag 1 into VF and then subtracts that flag, leaving V0 = 4. -/
theorem C3_sub_reads_flag_cex :
    (step c3cex 0).V 0 = 4 ∧ ¬((step c3cex 0).V 0 = (c3cex.V 0 + 256 - c3cex.V 15) % 256) := by
  decide

/-- C4 (amended): for X ≠ 0xF, `8XY6` sets VF to the least-significant
bit of `V[X]` and halves `V[X]`, and `8XYE` sets VF to the
most-significant bit of `V[X]` and doubles `V[X]` mod 256; the result
depends only on `V[X]`, never on `V[Y]`.  (For X = 0xF the claim
fails: the flag write destroys the operand before the shift — see the
counterexample.) -/
theorem C4_shifts :
    (∀ (s : Chip8) (rnd X Y : Nat), X < 16 → Y < 16 → X ≠ 15 →
      s.V X < 256 → fetches s (128 + X) (16 * Y + 6) →
      ((step s rnd).V 15 = s.V X % 2 ∧ (step s rnd).V X = s.V X / 2)) ∧
    (∀ (s : Chip8) (rnd X Y : Nat), X < 16 → Y < 16 → X ≠ 15 →
      s.V X < 256 → fetches s (128 + X) (16 * Y + 14) →
      ((step s rnd).V 15 = s.V X / 128 ∧ (step s rnd).V X = s.V X * 2 % 256)) := by
  constructor
  · intro s rnd X Y hX hY hXF ha hf
    obtain ⟨h0, h1⟩ := hf
    rw [step_eq, h0, h1, execInstr_8XY6 _ _ _ _ hX hY]
    constructor
    · simp [upd, Ne.symm hXF]
    · simp [upd, Ne.symm hXF, hXF]
  · intro s rnd X Y hX hY hXF ha hf
    obtain ⟨h0, h1⟩ := hf
    rw [step_eq, h0, h1, execInstr_8XYE _ _ _ _ hX hY]
    constructor
    · simp only [upd]
      split_ifs with h1 <;> simp_all <;> omega
    · simp [upd, Ne.symm hXF, hXF]

/-- Witness for C4 at `c4w6` (V1 = 7 shifted right) and `c4wE`
(V1 = 200 shifted left). -/
theorem C4_shifts_witness :
    (((step c4w6 0).V 15 = c4w6.V 1 % 2 ∧ (step c4w6 0).V 1 = c4w6.V 1 / 2) ∧
     ((step c4wE 0).V 15 = c4wE.V 1 / 128 ∧ (step c4wE 0).V 1 = c4wE.V 1 * 2 % 256)) :=
  ⟨C4_shifts.1 c4w6 0 1 0 (by decide) (by decide) (by decide) (by decide)
      ⟨by decide, by decide⟩,
    C4_shifts.2 c4wE 0 1 0 (by decide) (by decide) (by decide) (by decide)
      ⟨by decide, by decide⟩⟩

/-- C4 counterexample: executing `8F06` with VF = 2 should, by the
claim, leave the destination VF = 2 >> 1 = 1 and the flag = 0 — but
destination and flag are the same register when X = 0xF; the code
writes the flag 0 first and then shifts it, leaving VF = 0 ≠ 1. -/
theorem C4_shift_destroys_operand_cex :
    (step c4cex 0).V 15 = 0 ∧ ¬((step c4cex 0).V 15 = c4cex.V 15 / 2) := by decide

/-! ## Claims about bounds handling, the stack guard and key waiting -/

/-- C5 (amended): a sprite draw whose byte range leaves the address
space draws exactly the in-range prefix of rows (the height is clipped
to `4096 - I`) and leaves the lifecycle state unchanged; BCD-store,
register-dump and register-load skip the *entire* operation — not just
its out-of-range suffix — whenever their memory range reaches past
4095, and likewise leave the lifecycle state unchanged, so execution
continues.  (The original claim fails for the three data-transfer
instructions: the in-range prefix is not performed — see the
counterexample.) -/
theorem C5_bounds_fail_soft :
    (∀ (s : Chip8) (rnd X Y N : Nat), X < 16 → Y < 16 → N < 16 →
      fetches s (208 + X) (16 * Y + N) →
      ((step s rnd).display =
          (drawSprite s.ram s.I (s.V X) (s.V Y) (min N (4096 - s.I)) s.display).1 ∧
        (step s rnd).state = s.state)) ∧
    (∀ (s : Chip8) (rnd X : Nat), X < 16 → fetches s (240 + X) 0x33 →
      4096 ≤ s.I + 2 →
      ((step s rnd).ram = s.ram ∧ (step s rnd).state = s.state)) ∧
    (∀ (s : Chip8) (rnd X : Nat), X < 16 → fetches s (240 + X) 0x55 →
      4096 ≤ s.I + X →
      ((step s rnd).ram = s.ram ∧ (step s rnd).I = s.I ∧
        (step s rnd).state = s.state)) ∧
    (∀ (s : Chip8) (rnd X : Nat), X < 16 → fetches s (240 + X) 0x65 →
      4096 ≤ s.I + X →
      ((step s rnd).V = s.V ∧ (step s rnd).I = s.I ∧
        (step s rnd).state = s.state)) := by
  refine ⟨?_, ?_, ?_, ?_⟩
  · intro s rnd X Y N hX hY hN hf
    obtain ⟨h0, h1⟩ := hf
    rw [step_eq, h0, h1, execInstr_DXYN _ _ _ _ _ hX hY hN]
    constructor
    · show (drawSprite s.ram s.I (s.V X) (s.V Y) N s.display).1 =
        (drawSprite s.ram s.I (s.V X) (s.V Y) (min N (4096 - s.I)) s.display).1
      rw [drawSprite_clip]
    · rfl
  · intro s rnd X hX hf hI
    obtain ⟨h0, h1⟩ := hf
    rw [step_eq, h0, h1, execInstr_FX33 _ _ _ hX,
      if_neg (show ¬(s.I + 2 < 4096) by omega)]
    exact ⟨rfl, rfl⟩
  · intro s rnd X hX hf hI
    obtain ⟨h0, h1⟩ := hf
    rw [step_eq, h0, h1, execInstr_FX55 _ _ _ hX,
      if_neg (show ¬(s.I + X < 4096) by omega)]
    exact ⟨rfl, rfl, rfl⟩
  · intro s rnd X hX hf hI
    obtain ⟨h0, h1⟩ := hf
    rw [step_eq, h0, h1, execInstr_FX65 _ _ _ hX,
      if_neg (show ¬(s.I + X < 4096) by omega)]
    exact ⟨rfl, rfl, rfl⟩

/-- Witness for C5 at `c5wD` (sprite over the RAM edge), `c5w33`,
`c5w55` and `c5w65` (transfers over the RAM edge). -/
theorem C5_bounds_fail_soft_witness :
    (((step c5wD 0).display =
        (drawSprite c5wD.ram c5wD.I (c5wD.V 0) (c5wD.V 1) (min 5 (4096 - c5wD.I)) c5wD.display).1 ∧
      (step c5wD 0).state = c5wD.state) ∧
     ((step c5w33 0).ram = c5w33.ram ∧ (step c5w33 0).state = c5w33.state) ∧
     ((step c5w55 0).ram = c5w55.ram ∧ (step c5w55 0).I = c5w55.I ∧
       (step c5w55 0).state = c5w55.state) ∧
     ((step c5w65 0).V = c5w65.V ∧ (step c5w65 0).I = c5w65.I ∧
       (step c5w65 0).state = c5w65.state)) :=
  ⟨C5_bounds_fail_soft.1 c5wD 0 0 1 5 (by decide) (by decide) (by decide)
      ⟨by decide, by decide⟩,
    C5_bounds_fail_soft.2.1 c5w33 0 0 (by decide) ⟨by decide, by decide⟩ (by decide),
    C5_bounds_fail_soft.2.2.1 c5w55 0 6 (by decide) ⟨by decide, by decide⟩ (by decide),
    C5_bounds_fail_soft.2.2.2 c5w65 0 6 (by decide) ⟨by decide, by decide⟩ (by decide)⟩

/-- C5 counterexample: BCD-store of V0 = 123 at I = 4094.  The range
[4094, 4096] only partially exceeds RAM, so the claim requires the
in-range prefix to be written (ram[4094] = 1); the code skips the
whole store and ram[4094] stays 0. -/
theorem C5_bcd_not_partial_cex :
    (step c5cex 0).ram 4094 = 0 ∧ c5cex.V 0 / 100 = 1 ∧
      ¬((step c5cex 0).ram 4094 = c5cex.V 0 / 100) := by decide

/-- C6: a `2NNN` call with the stack pointer at capacity, or a `00EE`
return with the stack empty, pauses the machine, leaves the stack
contents and stack pointer unchanged and merely advances `PC` past the
instruction — control is not transferred. -/
theorem C6_stack_guard :
    (∀ (s : Chip8) (rnd A B : Nat), A < 16 → B < 256 → 12 ≤ s.sp →
      fetches s (32 + A) B →
      ((step s rnd).state = EmulatorState.PAUSED ∧ (step s rnd).sp = s.sp ∧
        (step s rnd).stack = s.stack ∧ (step s rnd).PC = (s.PC + 2) % 65536)) ∧
    (∀ (s : Chip8) (rnd : Nat), s.sp = 0 → fetches s 0 238 →
      ((step s rnd).state = EmulatorState.PAUSED ∧ (step s rnd).sp = s.sp ∧
        (step s rnd).stack = s.stack ∧ (step s rnd).PC = (s.PC + 2) % 65536)) := by
  constructor
  · intro s rnd A B hA hB hsp hf
    obtain ⟨h0, h1⟩ := hf
    rw [step_eq, h0, h1, execInstr_2NNN _ _ _ _ hA hB,
      if_neg (show ¬(s.sp < 12) by omega)]
    exact ⟨rfl, rfl, rfl, rfl⟩
  · intro s rnd hsp hf
    obtain ⟨h0, h1⟩ := hf
    rw [step_eq, h0, h1, show (0 * 256 + 238 : Nat) = 238 by norm_num,
      execInstr_00EE, if_neg (show ¬(0 < s.sp) by omega)]
    exact ⟨rfl, rfl, rfl, rfl⟩

/-- Witness for C6 at `c6wcall` (full stack) and `c6wret` (empty
stack). -/
theorem C6_stack_guard_witness :
    (((step c6wcall 0).state = EmulatorState.PAUSED ∧ (step c6wcall 0).sp = c6wcall.sp ∧
      (step c6wcall 0).stack = c6wcall.stack ∧
      (step c6wcall 0).PC = (c6wcall.PC + 2) % 65536) ∧
     ((step c6wret 0).state = EmulatorState.PAUSED ∧ (step c6wret 0).sp = c6wret.sp ∧
      (step c6wret 0).stack = c6wret.stack ∧
      (step c6wret 0).PC = (c6wret.PC + 2) % 65536)) :=
  ⟨C6_stack_guard.1 c6wcall 0 3 0x45 (by decide) (by decide) (by decide)
      ⟨by decide, by decide⟩,
    C6_stack_guard.2 c6wret 0 (by decide) ⟨by decide, by decide⟩⟩

theorem find_range_min (p : Nat → Bool) (k : Nat) :
    ∀ (cnt s : Nat), s ≤ k → k < s + cnt → p k = true →
      (∀ j, s ≤ j → j < k → p j = false) →
      (List.range' s cnt).find? p = some k := by
  intro cnt
  induction cnt with
  | zero => intro s h1 h2 h3 h4; omega
  | succ cnt ih =>
    intro s hsk hlt hk hmin
    rw [show List.range' s (cnt + 1) = s :: List.range' (s + 1) cnt from rfl]
    by_cases hes : s = k
    · subst hes
      simp [List.find?_cons, hk]
    · have hps : p s = false := hmin s (le_refl s) (by omega)
      simp only [List.find?_cons, hps]
      exact ih (s + 1) (by omega) (by omega) hk (fun j hj1 hj2 => hmin j (by omega) hj2)

theorem waitKey_no_key (c : Chip8) (X : Nat) (h : ∀ i, i < 16 → c.keypad i = false) :
    waitKey c X = { c with PC := (c.PC + 65534) % 65536 } := by
  unfold waitKey
  rw [List.find?_eq_none.mpr (fun x hx => by simp [h x (List.mem_range.mp hx)])]

theorem waitKey_key (c : Chip8) (X k : Nat) (hk16 : k < 16) (hk : c.keypad k = true)
    (hmin : ∀ j, j < k → c.keypad j = false) :
    waitKey c X = { c with V := upd c.V X k } := by
  unfold waitKey
  rw [List.range_eq_range',
    find_range_min c.keypad k 16 0 (by omega) (by omega) hk
      (fun j hj1 hj2 => hmin j hj2)]

/-- C7: for the wait-for-key instruction `FX0A`, when no key is
pressed the cycle leaves `PC` (and all registers) unchanged — the
fetch advance is rolled back; when at least one key is pressed, `PC`
advances by exactly 2 and `V[X]` receives the lowest pressed key
index. -/
theorem C7_wait_for_key :
    (∀ (s : Chip8) (rnd X : Nat), X < 16 → s.PC + 1 < 4096 →
      fetches s (240 + X) 0x0A → (∀ i, i < 16 → s.keypad i = false) →
      ((step s rnd).PC = s.PC ∧ (step s rnd).V = s.V ∧ (step s rnd).I = s.I)) ∧
    (∀ (s : Chip8) (rnd X k : Nat), X < 16 → s.PC + 1 < 4096 →
      fetches s (240 + X) 0x0A → k < 16 → s.keypad k = true →
      (∀ j, j < k → s.keypad j = false) →
      ((step s rnd).PC = s.PC + 2 ∧ (step s rnd).V = upd s.V X k ∧
        (step s rnd).I = s.I)) := by
  constructor
  · intro s rnd X hX hpc hf hnone
    obtain ⟨h0, h1⟩ := hf
    rw [step_eq, h0, h1, execInstr_FX0A _ _ _ hX,
      waitKey_no_key { s with PC := (s.PC + 2) % 65536 } X (fun i hi => hnone i hi)]
    refine ⟨?_, rfl, rfl⟩
    show ((s.PC + 2) % 65536 + 65534) % 65536 = s.PC
    omega
  · intro s rnd X k hX hpc hf hk16 hk hmin
    obtain ⟨h0, h1⟩ := hf
    rw [step_eq, h0, h1, execInstr_FX0A _ _ _ hX,
      waitKey_key { s with PC := (s.PC + 2) % 65536 } X k hk16 hk hmin]
    refine ⟨?_, rfl, rfl⟩
    show (s.PC + 2) % 65536 = s.PC + 2
    omega

/-- Witness for C7 at `c7wno` (no key pressed) and `c7wkey` (keys 5
and 9 pressed, lowest wins). -/
theorem C7_wait_for_key_witness :
    (((step c7wno 0).PC = c7wno.PC ∧ (step c7wno 0).V = c7wno.V ∧
      (step c7wno 0).I = c7wno.I) ∧
     ((step c7wkey 0).PC = c7wkey.PC + 2 ∧ (step c7wkey 0).V = upd c7wkey.V 3 5 ∧
      (step c7wkey 0).I = c7wkey.I)) :=
  ⟨C7_wait_for_key.1 c7wno 0 3 (by decide) (by decide) ⟨by decide, by decide⟩
      (by decide),
    C7_wait_for_key.2 c7wkey 0 3 5 (by decide) (by decide) ⟨by decide, by decide⟩
      (by decide) (by decide) (by decide)⟩

/-! ## Claims about the font region, ROM loading and the index
register -/

theorem regDump_preserve (ram V : Nat → Nat) (I a : Nat) (ha : a < I) :
    ∀ k, regDump ram V I k a = ram a := by
  intro k
  induction k with
  | zero => rfl
  | succ k ih =>
    show upd (regDump ram V I k) (I + k) (V k) a = ram a
    rw [upd_other _ _ _ _ (by omega), ih]

theorem waitKey_ram (c : Chip8) (X : Nat) : (waitKey c X).ram = c.ram := by
  unfold waitKey
  rcases (List.range 16).find? c.keypad with _ | k <;> rfl

set_option maxHeartbeats 4000000 in
/-- C8 (amended): no instruction mutates the font region
`[0x000, 0x050)` *provided the index register points at or past
0x050*: the only RAM-writing instructions are BCD-store (`FX33`) and
register-dump (`FX55`), and both write only at addresses `≥ I`.  (The
original claim — invariance for all values of the index register —
fails: with `I < 0x50` those instructions overwrite font bytes, see
the counterexample, which reaches such a state from initialization.) -/
theorem C8_font_region (s : Chip8) (rnd : Nat) (hI : 80 ≤ s.I) (a : Nat)
    (ha : a < 80) : (step s rnd).ram a = s.ram a := by
  rw [step_eq]
  generalize (s.ram s.PC * 256 + s.ram (s.PC + 1)) = op
  obtain ⟨hi, hhi, hdef⟩ : ∃ k, k < 16 ∧ op / 4096 % 16 = k :=
    ⟨_, Nat.mod_lt _ (by norm_num), rfl⟩
  interval_cases hi <;>
    simp only [execInstr, hdef, apply_ite (fun z : Chip8 => z.ram a), waitKey_ram,
      ite_self] <;>
    norm_num <;>
    split_ifs <;>
      (intros
       first
        | rfl
        | trivial
        | (exact regDump_preserve _ _ _ _ (by omega) _)
        | (simp only [upd]
           split_ifs <;> first | rfl | omega))

/-- Witness for C8 at `c8w` (I = 0x50) and font address 0. -/
theorem C8_font_region_witness :
    (step c8w 0).ram 0 = c8w.ram 0 :=
  C8_font_region c8w 0 (by decide) 0 (by decide)

/-- C8 counterexample: boot the machine with the four-byte ROM
`A000 F033` (set I := 0, then BCD-store).  After two cycles the first
font byte, 0xF0 at address 0, has been overwritten with 0: the font
region is not invariant for all values of the index register. -/
theorem C8_font_mutated_cex :
    c8boot.ram 0 = 0xF0 ∧ (step (step c8boot 0) 0).ram 0 = 0 := by decide

/-- C9: `loadRom` (the pure content of `init_chip8`) accepts every ROM
of exactly 4096 − 0x200 = 3584 bytes, rejects a 3585-byte ROM with the
too-large error, rejects an empty ROM with the empty error, and in the
failure cases returns only the error — no machine state. -/
theorem C9_rom_size_checks :
    (∀ rom : List Nat, rom.length = 3584 → ∃ c, loadRom rom = Except.ok c) ∧
    (∀ rom : List Nat, rom.length = 3585 →
      loadRom rom = Except.error RomError.RomTooLarge) ∧
    (∀ rom : List Nat, rom.length = 0 →
      loadRom rom = Except.error RomError.EmptyRom) := by
  refine ⟨?_, ?_, ?_⟩
  · intro rom h
    unfold loadRom
    rw [h]
    norm_num
  · intro rom h
    unfold loadRom
    rw [h]
    norm_num
  · intro rom h
    unfold loadRom
    rw [h]
    norm_num

/-- Witness for C9 on concrete ROMs of sizes 3584, 3585 and 0. -/
theorem C9_rom_size_checks_witness :
    ((∃ c, loadRom (List.replicate 3584 7) = Except.ok c) ∧
     loadRom (List.replicate 3585 7) = Except.error RomError.RomTooLarge ∧
     loadRom [] = Except.error RomError.EmptyRom) :=
  ⟨C9_rom_size_checks.1 (List.replicate 3584 7) (by rw [List.length_replicate]),
    C9_rom_size_checks.2.1 (List.replicate 3585 7) (by rw [List.length_replicate]),
    C9_rom_size_checks.2.2 [] rfl⟩

/-- C10: whenever the transfer fits in RAM (`I + X < 4096`), both
register-dump (`FX55`) and register-load (`FX65`) leave the index
register equal to `I + X + 1`; the embedded `execInstr` applies this
increment unconditionally — there is no configuration flag selecting a
leave-I-unchanged variant (the C source has such a flag only in
comments). -/
theorem C10_index_autoincrement :
    (∀ (s : Chip8) (rnd X : Nat), X < 16 → fetches s (240 + X) 0x55 →
      s.I + X < 4096 → (step s rnd).I = s.I + X + 1) ∧
    (∀ (s : Chip8) (rnd X : Nat), X < 16 → fetches s (240 + X) 0x65 →
      s.I + X < 4096 → (step s rnd).I = s.I + X + 1) := by
  constructor
  · intro s rnd X hX hf hIX
    obtain ⟨h0, h1⟩ := hf
    rw [step_eq, h0, h1, execInstr_FX55 _ _ _ hX,
      if_pos (show s.I + X < 4096 from hIX)]
    show (s.I + (X + 1)) % 65536 = s.I + X + 1
    omega
  · intro s rnd X hX hf hIX
    obtain ⟨h0, h1⟩ := hf
    rw [step_eq, h0, h1, execInstr_FX65 _ _ _ hX,
      if_pos (show s.I + X < 4096 from hIX)]
    show (s.I + (X + 1)) % 65536 = s.I + X + 1
    omega

/-- Witness for C10 at `c10w55` and `c10w65` (I = 100, X = 2). -/
theorem C10_index_autoincrement_witness :
    ((step c10w55 0).I = c10w55.I + 2 + 1 ∧ (step c10w65 0).I = c10w65.I + 2 + 1) :=
  ⟨C10_index_autoincrement.1 c10w55 0 2 (by decide) ⟨by decide, by decide⟩ (by decide),
    C10_index_autoincrement.2 c10w65 0 2 (by decide) ⟨by decide, by decide⟩ (by decide)⟩
